import Mathlib

/-!
Formal model of the sdploy-dns resolver core, translated from the Go
sources: the domain normalizer, the policy store (deny list and
overwrites), the response cache with its positive and negative TTL
policies and eviction, the request handler, the request coalescer and
the upstream forwarder with round-robin selection and truncation
fallback.  Go strings are modelled as lists of byte values, maps as
association lists, wall-clock instants as natural numbers, and network
exchanges as oracle functions supplied to the forwarder.
-/

namespace SdployDNS

/-- Domain names are Go strings, i.e. byte sequences; the resolver only
manipulates ASCII bytes, so a name is a list of byte values. -/
abbrev Name := List Nat

/-- ASCII code of the dot character. -/
def dotByte : Nat := 46

/-- ASCII whitespace recognised by strings.TrimSpace. -/
def isSpaceByte (b : Nat) : Bool :=
  b = 32 || b = 9 || b = 10 || b = 13 || b = 11 || b = 12

/-- Byte-wise ASCII lower casing, as strings.ToLower acts on ASCII. -/
def toLowerByte (b : Nat) : Nat :=
  if 65 ≤ b ∧ b ≤ 90 then b + 32 else b

/-- strings.TrimSpace: drop leading and trailing whitespace. -/
def trimSpace (s : Name) : Name :=
  ((s.dropWhile isSpaceByte).reverse.dropWhile isSpaceByte).reverse

/-- strings.TrimSuffix(s, "."): remove one trailing dot when present. -/
def trimDot (s : Name) : Name :=
  if s.getLast? = some dotByte then s.dropLast else s

/-- normalizeDomain from the source: lower-case, trim surrounding
whitespace, then drop a single trailing dot.  The sync.Map interning
cache in the source is pure memoisation of this value and is omitted. -/
def normalizeDomain (s : Name) : Name :=
  trimDot (trimSpace (s.map toLowerByte))

/-- One entry of a DNS question section. -/
structure Question where
  qname : Name
  qtype : Nat
  qclass : Nat
deriving DecidableEq

/-- Resource data, specialised to what the resolver inspects: SOA records
carry their MINIMUM field, A records a textual address. -/
inductive RData where
  | soa (minttl : Nat)
  | a (ip : String)
  | other
deriving DecidableEq

/-- A resource record: owner name, TTL, and data. -/
structure RR where
  rname : Name
  ttl : Nat
  rdata : RData
deriving DecidableEq

/-- A DNS message with the header fields the resolver reads or writes. -/
structure Msg where
  id : Nat
  question : List Question
  qr : Bool
  aa : Bool
  tc : Bool
  rd : Bool
  ra : Bool
  cd : Bool
  rcode : Nat
  answer : List RR
  ns : List RR
  extra : List RR
deriving DecidableEq

def rcodeSuccess : Nat := 0
def rcodeServerFailure : Nat := 2
def rcodeNameError : Nat := 3
def rcodeNotImplemented : Nat := 4
def rcodeRefused : Nat := 5

/-- The all-zero message, standing for `new(dns.Msg)`. -/
def emptyMsg : Msg :=
  ⟨0, [], false, false, false, false, false, false, 0, [], [], []⟩

/-- msg.SetReply(r): copy id, first question, RD and CD, mark as response
with RCODE success. -/
def setReply (r : Msg) : Msg :=
  { emptyMsg with
    id := r.id, qr := true, rd := r.rd, cd := r.cd,
    rcode := rcodeSuccess, question := r.question.take 1 }

/-- createNXDOMAINResponse: SetReply, Authoritative, RCODE NXDOMAIN. -/
def createNXDOMAINResponse (r : Msg) : Msg :=
  { setReply r with aa := true, rcode := rcodeNameError }

/-- Cache entries pair the stored reply with its absolute expiry instant. -/
structure CacheEntry where
  message : Msg
  expiresAt : Nat
deriving DecidableEq

/-- The cache key renders (normalised QNAME, QTYPE, QCLASS). -/
abbrev CacheKey := Name × Nat × Nat

/-- The cache map, modelled as an association list with unique keys. -/
abbrev Cache := List (CacheKey × CacheEntry)

/-- The cache-relevant configuration fields (Go ints). -/
structure Config where
  cacheTTL : Int
  negativeCacheTTL : Int
deriving DecidableEq

/-- One configured upstream endpoint. -/
structure NameserverConfig where
  address : String
  protocol : String
  port : Nat
deriving DecidableEq

/-- Deny-list entry: optional client IP / subnet predicates.  Client
addresses are abstracted to numbers; a subnet is its membership test. -/
structure BlockEntry where
  ips : List Nat
  subnets : List (Nat → Bool)

/-- Overwrite entry: primary textual IP plus client predicates. -/
structure OverwriteEntry where
  ip : String
  ips : List Nat
  subnets : List (Nat → Bool)

/-- The process-wide resolver state read by the request pipeline. -/
structure DNSServer where
  config : Config
  blocked : List (Name × BlockEntry)
  overwrites : List (Name × OverwriteEntry)
  nameservers : List NameserverConfig
  cache : Cache
  maxCacheSize : Nat

def findEntry : Cache → CacheKey → Option CacheEntry
  | [], _ => none
  | (k', e) :: t, k => if k' = k then some e else findEntry t k

/-- Map insertion: overwrite the existing key or append a fresh one. -/
def setEntry : Cache → CacheKey → CacheEntry → Cache
  | [], k, e => [(k, e)]
  | (k', e') :: t, k, e =>
    if k' = k then (k, e) :: t else (k', e') :: setEntry t k e

/-- Map deletion by key. -/
def eraseEntry : Cache → CacheKey → Cache
  | [], _ => []
  | (k', e') :: t, k => if k' = k then t else (k', e') :: eraseEntry t k

/-- getCacheKey: none models the empty string returned for a message
without a question section. -/
def getCacheKey (r : Msg) : Option CacheKey :=
  match r.question with
  | [] => none
  | q :: _ => some (normalizeDomain q.qname, q.qtype, q.qclass)

/-- getCachedResponse: serve a clone of an unexpired entry, restamped
with the requesting id, question, RD and CD. -/
def getCachedResponse (s : DNSServer) (now : Nat) (r : Msg) : Option Msg :=
  if s.config.cacheTTL ≤ 0 ∧ s.config.negativeCacheTTL ≤ 0 then none
  else
    match getCacheKey r with
    | none => none
    | some key =>
      match findEntry s.cache key with
      | none => none
      | some entry =>
        if entry.expiresAt < now then none
        else some { entry.message with
                    id := r.id, question := r.question,
                    rd := r.rd, cd := r.cd }

/-- isNegativeResponse: error RCODEs, or NOERROR with no answers. -/
def isNegativeResponse (resp : Msg) : Bool :=
  resp.rcode = rcodeNameError || resp.rcode = rcodeServerFailure ||
  resp.rcode = rcodeRefused || resp.rcode = rcodeNotImplemented ||
  (resp.rcode = rcodeSuccess && resp.answer.isEmpty)

/-- validateResponse: both messages have a question and agree on the
normalised name, type and class. -/
def validateResponse (r resp : Msg) : Bool :=
  match r.question, resp.question with
  | q :: _, q' :: _ =>
    normalizeDomain q.qname = normalizeDomain q'.qname &&
    q.qtype = q'.qtype && q.qclass = q'.qclass
  | _, _ => false

/-- MINIMUM field of the first SOA in an authority section. -/
def firstSOAMin : List RR → Option Nat
  | [] => none
  | rr :: t =>
    match rr.rdata with
    | RData.soa m => some m
    | _ => firstSOAMin t

/-- TTL derivation of cacheNegativeResponse: adopt the first SOA MINIMUM
when positive and smaller; when the TTL is still the configured value,
additionally scan every authority record TTL. -/
def negativeCacheTTLValue (negativeTTL : Int) (authority : List RR) : Int :=
  if authority.isEmpty then negativeTTL
  else
    let t1 :=
      match firstSOAMin authority with
      | some m => if 0 < m ∧ (m : Int) < negativeTTL then (m : Int) else negativeTTL
      | none => negativeTTL
    if t1 = negativeTTL then
      authority.foldl
        (fun t rr => if 0 < rr.ttl ∧ (rr.ttl : Int) < t then (rr.ttl : Int) else t) t1
    else t1

/-- TTL derivation of cachePositiveResponse: minimum of the configured
TTL and the smallest answer-record TTL, via the uint32 minTTL variable. -/
def positiveCacheTTLValue (cacheTTL : Int) (answer : List RR) : Int :=
  if answer.isEmpty then cacheTTL
  else
    let maxU : Nat := 4294967295
    let m0 : Nat := if 0 < cacheTTL ∧ cacheTTL ≤ (maxU : Int) then cacheTTL.toNat else maxU
    let m := answer.foldl (fun acc rr => if rr.ttl < acc then rr.ttl else acc) m0
    if m < maxU ∧ (m : Int) < cacheTTL then (m : Int) else cacheTTL

/-- Key with the smallest expiry, scanning left to right from a running
best; mirrors the map scan of evictOldestCacheEntry (strict Before keeps
the first of tied entries). -/
def oldestAux : CacheKey × Nat → Cache → CacheKey × Nat
  | best, [] => best
  | (bk, bt), (k', e') :: t =>
    if e'.expiresAt < bt then oldestAux (k', e'.expiresAt) t else oldestAux (bk, bt) t

/-- evictOldestCacheEntry: drop the entry with the smallest expiry (the
two branches of the source both delete that same key). -/
def evictOldestCacheEntry (c : Cache) : Cache :=
  match c with
  | [] => c
  | (k, e) :: t => eraseEntry c (oldestAux (k, e.expiresAt) t).1

/-- The shared insertion tail of both cache writers: evict once when the
size cap is reached, then store the entry. -/
def storeEntry (maxSize : Nat) (c : Cache) (key : CacheKey) (e : CacheEntry) : Cache :=
  setEntry (if 0 < maxSize ∧ maxSize ≤ c.length then evictOldestCacheEntry c else c) key e

/-- cacheNegativeResponse: negative-TTL policy, skip below one second. -/
def cacheNegativeResponse (s : DNSServer) (now : Nat) (resp : Msg) (key : CacheKey) :
    DNSServer :=
  if s.config.negativeCacheTTL ≤ 0 then s
  else if negativeCacheTTLValue s.config.negativeCacheTTL resp.ns < 1 then s
  else
    { s with
      cache := storeEntry s.maxCacheSize s.cache key
        ⟨resp, now + (negativeCacheTTLValue s.config.negativeCacheTTL resp.ns).toNat⟩ }

/-- cachePositiveResponse: positive-TTL policy, only NOERROR with
answers, skip below one second. -/
def cachePositiveResponse (s : DNSServer) (now : Nat) (resp : Msg) (key : CacheKey) :
    DNSServer :=
  if s.config.cacheTTL ≤ 0 then s
  else if resp.rcode ≠ rcodeSuccess ∨ resp.answer.isEmpty then s
  else if positiveCacheTTLValue s.config.cacheTTL resp.answer < 1 then s
  else
    { s with
      cache := storeEntry s.maxCacheSize s.cache key
        ⟨resp, now + (positiveCacheTTLValue s.config.cacheTTL resp.answer).toNat⟩ }

/-- TTL stored by setCachedResponse, per the classification of R. -/
def storedTTLValue (cfg : Config) (resp : Msg) : Int :=
  if isNegativeResponse resp then negativeCacheTTLValue cfg.negativeCacheTTL resp.ns
  else positiveCacheTTLValue cfg.cacheTTL resp.answer

/-- setCachedResponse: validate, classify, and defer to the negative or
positive policy. -/
def setCachedResponse (s : DNSServer) (now : Nat) (r resp : Msg) : DNSServer :=
  match getCacheKey r with
  | none => s
  | some key =>
    if ¬ validateResponse r resp then s
    else if isNegativeResponse resp then cacheNegativeResponse s now resp key
    else cachePositiveResponse s now resp key

/-- cleanupExpiredCache: the sweeper keeps entries that have not expired. -/
def cleanupExpiredCache (now : Nat) (c : Cache) : Cache :=
  c.filter (fun p => decide (now ≤ p.2.expiresAt))

def findBlock : List (Name × BlockEntry) → Name → Option BlockEntry
  | [], _ => none
  | (d, e) :: t, domain => if d = domain then some e else findBlock t domain

def findOverwrite : List (Name × OverwriteEntry) → Name → Option OverwriteEntry
  | [], _ => none
  | (d, e) :: t, domain => if d = domain then some e else findOverwrite t domain

/-- matchesBlockEntry: an empty predicate matches every client; a nil
client never matches a non-empty predicate. -/
def matchesBlockEntry (entry : BlockEntry) (clientIP : Option Nat) : Bool :=
  if entry.subnets.isEmpty ∧ entry.ips.isEmpty then true
  else
    match clientIP with
    | none => false
    | some ip => entry.ips.contains ip || entry.subnets.any (fun sn => sn ip)

/-- Strict parent suffixes of a name: every tail that follows a dot at a
non-final position, in left-to-right order, as the index loop of
isBlocked enumerates them. -/
def parentSuffixes : Name → List Name
  | [] => []
  | b :: t => (if b = dotByte ∧ ¬ t.isEmpty then [t] else []) ++ parentSuffixes t

/-- isBlocked: exact deny-list match first, then each strict parent
suffix, with the client predicate applied at every candidate. -/
def isBlocked (s : DNSServer) (domain : Name) (clientIP : Option Nat) : Bool :=
  (match findBlock s.blocked domain with
   | some entry => matchesBlockEntry entry clientIP
   | none => false) ||
  (parentSuffixes domain).any (fun parent =>
    match findBlock s.blocked parent with
    | some entry => matchesBlockEntry entry clientIP
    | none => false)

/-- getOverwrite: exact-match lookup with the shared predicate rule. -/
def getOverwrite (s : DNSServer) (domain : Name) (clientIP : Option Nat) : Option String :=
  match findOverwrite s.overwrites domain with
  | none => none
  | some entry =>
    if entry.subnets.isEmpty ∧ entry.ips.isEmpty then some entry.ip
    else
      match clientIP with
      | none => none
      | some ip =>
        if entry.ips.contains ip || entry.subnets.any (fun sn => sn ip) then
          some entry.ip
        else none

/-- Split a character list at every dot. -/
def splitDots : List Char → List (List Char)
  | [] => [[]]
  | c :: t =>
    if c = '.' then [] :: splitDots t
    else
      match splitDots t with
      | h :: r => (c :: h) :: r
      | [] => [[c]]

/-- Dotted-quad test for the target of an A record; models the parsing
performed by the external wire codec when dns.NewRR scans the rdata of
an A record (the codec library is outside this repository). -/
def isIPv4String (ip : String) : Bool :=
  let parts := splitDots ip.toList
  parts.length = 4 &&
  parts.all (fun p =>
    0 < p.length && p.length ≤ 3 &&
    p.all (fun ch => 48 ≤ ch.toNat && ch.toNat ≤ 57) &&
    p.foldl (fun n ch => n * 10 + (ch.toNat - 48)) 0 ≤ 255)

/-- dns.NewRR for the overwrite reply: succeeds exactly when the textual
address is a valid A-record target, yielding a TTL-300 A record. -/
def newRR_A (qname : Name) (ip : String) : Option RR :=
  if isIPv4String ip then some ⟨qname, 300, RData.a ip⟩ else none

/-- Outcome of handleDNSRequest: a message written back to the client,
or the handoff to forwardRequest with the normalised domain. -/
inductive HandlerAction where
  | written (m : Msg)
  | forwarded (domain : Name)
deriving DecidableEq

/-- handleDNSRequest: cache first, then deny list, then overwrite, then
the upstream forwarder.  The source reads r.Question[0] without a guard
directly after the cache miss; a message with an empty question section
therefore faults (index out of range), modelled by none. -/
def handleDNSRequest (s : DNSServer) (now : Nat) (clientIP : Option Nat) (r : Msg) :
    Option HandlerAction :=
  match getCachedResponse s now r with
  | some cached => some (.written cached)
  | none =>
    match r.question with
    | [] => none
    | q :: _ =>
      let domain := normalizeDomain q.qname
      if isBlocked s domain clientIP then
        some (.written (createNXDOMAINResponse r))
      else
        match getOverwrite s domain clientIP with
        | some ip =>
          match newRR_A q.qname ip with
          | some rr => some (.written { setReply r with aa := true, answer := [rr] })
          | none => some (.forwarded domain)
        | none => some (.forwarded domain)

/-- parseOverwrites restricted to the old configuration format, where an
entry is a bare string: the only load-time validation is that the string
is non-empty. -/
def parseOverwritesSimple : List (Name × String) → Except String (List (Name × OverwriteEntry))
  | [] => Except.ok []
  | (d, v) :: t =>
    if v = "" then Except.error "missing IP for overwrite"
    else
      match parseOverwritesSimple t with
      | Except.ok rest => Except.ok ((normalizeDomain d, ⟨v, [], []⟩) :: rest)
      | Except.error e => Except.error e

/-- sendResponse: restamp a reply with the local request id and question
before the writeback. -/
def sendResponseMsg (r resp : Msg) : Msg :=
  { resp with id := r.id, question := r.question }

/-- notifyWaiters stamps each per-waiter copy with the fetching request
(the waiter then restamps with its own id and question on delivery). -/
def notifyWaiterMsg (rLeader resp : Msg) : Msg :=
  { resp with id := rLeader.id, question := rLeader.question }

/-- Outcome published by the leader of a coalescing round: the upstream
reply, or the NXDOMAIN synthesised from the leader request when the
upstream returned nothing. -/
def coalesceResp (leader : Msg) (upstream : Option Msg) : Msg :=
  match upstream with
  | some m => m
  | none => createNXDOMAINResponse leader

/-- One coalescing round for a single fingerprint: the first arrival is
the leader and performs the single upstream call (count 1); every other
arrival is a registered waiter and receives a copy of the one outcome.
Returns the upstream call count and the replies written to the
respective clients. -/
def coalesceRound (requests : List Msg) (upstream : Option Msg) : Nat × List Msg :=
  match requests with
  | [] => (0, [])
  | leader :: waiters =>
    (1, sendResponseMsg leader (coalesceResp leader upstream) ::
        waiters.map (fun wr =>
          sendResponseMsg wr (notifyWaiterMsg leader (coalesceResp leader upstream))))

/-- Content of a reply with the per-client id and question erased. -/
def contentOf (m : Msg) : Msg := { m with id := 0, question := [] }

/-- Network oracle: protocol, address, timeout seconds to optional reply. -/
abbrev ExchangeFun := String → String → Nat → Option Msg

/-- Record of one upstream exchange performed by the forwarder. -/
structure AttemptRec where
  protocol : String
  address : String
  timeout : Nat
deriving DecidableEq

def joinHostPort (address : String) (port : Nat) : String :=
  address ++ ":" ++ toString port

/-- forwardToNameserver: protocol dispatch.  UDP and TCP use 5-second
clients, DoT a 5-second TLS client, DoH the 30-second HTTP client; any
unrecognised protocol falls to the UDP default. -/
def forwardToNameserver (exchange : ExchangeFun) (ns : NameserverConfig)
    (address : String) : Option Msg × AttemptRec :=
  if ns.protocol = "doh" then (exchange "doh" ns.address 30, ⟨"doh", ns.address, 30⟩)
  else if ns.protocol = "dot" then (exchange "dot" address 5, ⟨"dot", address, 5⟩)
  else if ns.protocol = "tcp" then (exchange "tcp" address 5, ⟨"tcp", address, 5⟩)
  else (exchange "udp" address 5, ⟨"udp", address, 5⟩)

/-- handleTruncatedResponse: retry the same address over TCP with a fresh
5-second client; use the TCP reply only when it validates. -/
def handleTruncatedResponse (exchange : ExchangeFun) (r : Msg) (address : String) :
    Option Msg :=
  match exchange "tcp" address 5 with
  | some tcpResp => if validateResponse r tcpResp then some tcpResp else none
  | none => none

def isTCPBasedProtocol (protocol : String) : Bool :=
  protocol = "tcp" || protocol = "dot" || protocol = "doh"

/-- tryForwardToNameserver: one endpoint attempt — exchange, validate,
and escalate a truncated non-TCP reply to TCP.  Also returns the list of
exchanges performed. -/
def tryForwardToNameserver (exchange : ExchangeFun) (r : Msg) (ns : NameserverConfig) :
    Option Msg × List AttemptRec :=
  match (forwardToNameserver exchange ns (joinHostPort ns.address ns.port)).1 with
  | none => (none, [(forwardToNameserver exchange ns (joinHostPort ns.address ns.port)).2])
  | some m =>
    if ¬ validateResponse r m then
      (none, [(forwardToNameserver exchange ns (joinHostPort ns.address ns.port)).2])
    else if m.tc ∧ ¬ isTCPBasedProtocol ns.protocol then
      (handleTruncatedResponse exchange r (joinHostPort ns.address ns.port),
       [(forwardToNameserver exchange ns (joinHostPort ns.address ns.port)).2,
        ⟨"tcp", joinHostPort ns.address ns.port, 5⟩])
    else (some m, [(forwardToNameserver exchange ns (joinHostPort ns.address ns.port)).2])

/-- Starting index of a forward: the 64-bit round-robin counter value
modulo the endpoint count. -/
def startIdx (counter n : Nat) : Nat := (counter % 2 ^ 64) % n

/-- Padding endpoint for out-of-range indexing; never reached because
every probed index is below the list length. -/
def defaultNS : NameserverConfig := ⟨"", "udp", 53⟩

/-- The endpoint loop of forwardDirectInternal: try index (start+i) mod n
for i = 0 .. fuel-1, returning the first reply. -/
def tryLoop (attempt : Nat → Option Msg) (n start : Nat) : Nat → Nat → Option Msg
  | _, 0 => none
  | i, rem + 1 =>
    match attempt ((start + i) % n) with
    | some resp => some resp
    | none => tryLoop attempt n start (i + 1) rem

/-- forwardDirectInternal: round-robin starting index from the shared
counter, then one attempt per endpoint, wrapping, first success wins. -/
def forwardDirectInternal (exchange : ExchangeFun) (r : Msg)
    (nameservers : List NameserverConfig) (counter : Nat) : Option Msg :=
  if nameservers.isEmpty then none
  else
    tryLoop
      (fun idx => (tryForwardToNameserver exchange r (nameservers.getD idx defaultNS)).1)
      nameservers.length (startIdx counter nameservers.length) 0 nameservers.length

/-- Upstream reply cached for the name "ads" before the deny rule is
consulted. -/
def cachedUpstreamC1 : Msg :=
  { emptyMsg with
    qr := true, rcode := rcodeSuccess,
    question := [⟨[97, 100, 115], 1, 1⟩],
    answer := [⟨[97, 100, 115], 60, RData.a "1.2.3.4"⟩] }

/-- Resolver state whose deny list contains "ads" for every client while
the cache already holds an upstream reply for it. -/
def serverC1 : DNSServer :=
  ⟨⟨60, 0⟩, [([97, 100, 115], ⟨[], []⟩)], [], [],
   [(([97, 100, 115], 1, 1), ⟨cachedUpstreamC1, 100⟩)], 0⟩

/-- The same resolver state with an empty cache. -/
def serverC1miss : DNSServer :=
  ⟨⟨60, 0⟩, [([97, 100, 115], ⟨[], []⟩)], [], [], [], 0⟩

/-- A query for "ads", type A, class IN. -/
def requestC1 : Msg :=
  { emptyMsg with id := 7, question := [⟨[97, 100, 115], 1, 1⟩] }

/-- Resolver state mapping the name "a" to the IPv6 string "::1" for
every client, with caching disabled. -/
def serverC10 : DNSServer :=
  ⟨⟨0, 0⟩, [], [([97], ⟨"::1", [], []⟩)], [], [], 0⟩

/-- A query for "a", type A, class IN. -/
def requestC10 : Msg :=
  { emptyMsg with id := 5, question := [⟨[97], 1, 1⟩] }

/-- Resolver state with negative caching configured to 300 seconds. -/
def serverC4 : DNSServer := ⟨⟨0, 300⟩, [], [], [], [], 0⟩

/-- A query for "b", type A, class IN. -/
def requestC4 : Msg :=
  { emptyMsg with id := 3, question := [⟨[98], 1, 1⟩] }

/-- NXDOMAIN reply whose only authority record is an SOA with header TTL
10 and MINIMUM 0. -/
def respC4 : Msg :=
  { emptyMsg with
    qr := true, rcode := rcodeNameError,
    question := [⟨[98], 1, 1⟩], ns := [⟨[98], 10, RData.soa 0⟩] }

/-- NXDOMAIN reply whose only authority record is an SOA with header TTL
500 and MINIMUM 120. -/
def respC4w : Msg :=
  { emptyMsg with
    qr := true, rcode := rcodeNameError,
    question := [⟨[98], 1, 1⟩], ns := [⟨[98], 500, RData.soa 120⟩] }

/-- Resolver state with positive caching configured to 60 seconds. -/
def serverC6 : DNSServer := ⟨⟨60, 0⟩, [], [], [], [], 0⟩

/-- A query for "a" with recursion desired. -/
def requestC6 : Msg :=
  { emptyMsg with id := 1, question := [⟨[97], 1, 1⟩], rd := true }

/-- A later query for "a" from a different id with CD set. -/
def request2C6 : Msg :=
  { emptyMsg with id := 2, question := [⟨[97], 1, 1⟩], cd := true }

/-- Positive upstream reply for "a" with one A record of TTL 300. -/
def respC6 : Msg :=
  { emptyMsg with
    qr := true, aa := true, ra := true,
    question := [⟨[97], 1, 1⟩], answer := [⟨[97], 300, RData.a "1.2.3.4"⟩] }

/-- A two-entry cache whose second entry expires first. -/
def cacheC7 : Cache :=
  [(([97], 1, 1), ⟨emptyMsg, 50⟩), (([98], 1, 1), ⟨emptyMsg, 20⟩)]

/-- Resolver state at its configured capacity of two entries. -/
def serverC7 : DNSServer := ⟨⟨60, 0⟩, [], [], [], cacheC7, 2⟩

/-- A query for "c", a key not yet cached. -/
def requestC7 : Msg :=
  { emptyMsg with id := 4, question := [⟨[99], 1, 1⟩] }

/-- Positive upstream reply for "c". -/
def respC7 : Msg :=
  { emptyMsg with
    qr := true, question := [⟨[99], 1, 1⟩],
    answer := [⟨[99], 300, RData.a "5.6.7.8"⟩] }

/-- Two healthy upstream endpoints for the round-robin witness. -/
def nsListC8 : List NameserverConfig :=
  [⟨"9.9.9.9", "udp", 53⟩, ⟨"149.112.112.112", "udp", 53⟩]

/-- An exchange oracle on which every endpoint fails. -/
def exchangeC8 : ExchangeFun := fun _ _ _ => none

/-- Three upstream endpoints for the counter-wraparound counterexample. -/
def nsList3C8 : List NameserverConfig :=
  [⟨"1.1.1.1", "udp", 53⟩, ⟨"8.8.8.8", "udp", 53⟩, ⟨"9.9.9.9", "udp", 53⟩]

/-- A query for "a" used for the forwarding witnesses. -/
def requestC8 : Msg := { emptyMsg with id := 6, question := [⟨[97], 1, 1⟩] }

/-- The UDP endpoint used by the truncation witness. -/
def nsC9 : NameserverConfig := ⟨"9.9.9.9", "udp", 53⟩

/-- A query for "a" used for the truncation witness. -/
def requestC9 : Msg := { emptyMsg with id := 8, question := [⟨[97], 1, 1⟩] }

/-- A truncated, otherwise valid UDP reply (TC=1, no answers). -/
def truncatedC9 : Msg :=
  { emptyMsg with qr := true, tc := true, question := [⟨[97], 1, 1⟩] }

/-- The untruncated TCP reply carrying the full answer. -/
def tcpReplyC9 : Msg :=
  { emptyMsg with
    qr := true, question := [⟨[97], 1, 1⟩],
    answer := [⟨[97], 120, RData.a "7.7.7.7"⟩] }

/-- Exchange oracle answering truncated over UDP and complete over TCP. -/
def exchangeC9 : ExchangeFun := fun proto _ _ =>
  if proto = "udp" then some truncatedC9
  else if proto = "tcp" then some tcpReplyC9
  else none

/-- First (leading) arrival of a coalescing round. -/
def leaderC3 : Msg := { emptyMsg with id := 11, question := [⟨[97], 1, 1⟩] }

/-- Second arrival, registered as a waiter, with a distinct id. -/
def waiterC3 : Msg := { emptyMsg with id := 22, question := [⟨[97], 1, 1⟩], rd := true }

/-- The single upstream reply fetched by the leader. -/
def upstreamC3 : Msg :=
  { emptyMsg with
    qr := true, question := [⟨[97], 1, 1⟩],
    answer := [⟨[97], 60, RData.a "9.9.9.9"⟩] }

lemma mem_trimSpace {b : Nat} {s : Name} (h : b ∈ trimSpace s) : b ∈ s := by
  unfold trimSpace at h
  rw [List.mem_reverse] at h
  have h2 := (List.dropWhile_sublist (l := (s.dropWhile isSpaceByte).reverse)
    (p := isSpaceByte)).mem h
  rw [List.mem_reverse] at h2
  exact (List.dropWhile_sublist (l := s) (p := isSpaceByte)).mem h2

lemma mem_trimDot {b : Nat} {s : Name} (h : b ∈ trimDot s) : b ∈ s := by
  unfold trimDot at h
  split at h
  · exact (List.dropLast_sublist s).mem h
  · exact h

lemma toLowerByte_not_upper (a : Nat) : ¬ (65 ≤ toLowerByte a ∧ toLowerByte a ≤ 90) := by
  unfold toLowerByte
  split <;> omega

lemma head?_dropWhile_not {p : Nat → Bool} :
    ∀ (l : List Nat) (b : Nat), (l.dropWhile p).head? = some b → p b = false := by
  intro l
  induction l with
  | nil => intro b h; simp at h
  | cons a t ih =>
    intro b h
    rw [List.dropWhile_cons] at h
    by_cases hp : p a
    · rw [if_pos hp] at h; exact ih b h
    · rw [if_neg hp] at h
      simp only [List.head?_cons, Option.some.injEq] at h
      subst h
      exact Bool.eq_false_iff.mpr hp

lemma getLast?_dropWhile {p : Nat → Bool} :
    ∀ (l : List Nat), l.dropWhile p ≠ [] → (l.dropWhile p).getLast? = l.getLast? := by
  intro l
  induction l with
  | nil => intro h; simp at h
  | cons a t ih =>
    intro h
    rw [List.dropWhile_cons]
    rw [List.dropWhile_cons] at h
    by_cases hp : p a
    · rw [if_pos hp] at h ⊢
      have ht : t ≠ [] := by
        intro he; rw [he] at h; simp at h
      rw [ih h]
      match t, ht with
      | b :: t2, _ => simp [List.getLast?_cons_cons]
    · rw [if_neg hp]

lemma head?_dropLast {l : List Nat} {b : Nat} (h : l.dropLast.head? = some b) :
    l.head? = some b := by
  match l with
  | [] => simp at h
  | [a] => simp at h
  | a :: c :: t => simp [List.dropLast] at h ⊢; exact h

/-- Head byte of a trimmed name is not whitespace. -/
lemma head?_trimSpace_not_space {s : Name} {b : Nat}
    (h : (trimSpace s).head? = some b) : isSpaceByte b = false := by
  unfold trimSpace at h
  set L := (s.dropWhile isSpaceByte).reverse.dropWhile isSpaceByte with hL
  have hne : L ≠ [] := by
    intro he; rw [he] at h; simp at h
  rw [← List.getLast?_reverse] at h
  rw [List.reverse_reverse] at h
  rw [hL, getLast?_dropWhile _ (hL ▸ hne)] at h
  rw [List.getLast?_reverse] at h
  exact head?_dropWhile_not _ _ h

/-- Last byte of a trimmed name is not whitespace. -/
lemma getLast?_trimSpace_not_space {s : Name} {b : Nat}
    (h : (trimSpace s).getLast? = some b) : isSpaceByte b = false := by
  unfold trimSpace at h
  rw [List.getLast?_reverse] at h
  exact head?_dropWhile_not _ _ h

lemma lower_normalizeDomain {s : Name} {b : Nat} (h : b ∈ normalizeDomain s) :
    ¬ (65 ≤ b ∧ b ≤ 90) := by
  unfold normalizeDomain at h
  have hb : b ∈ s.map toLowerByte := mem_trimSpace (mem_trimDot h)
  rw [List.mem_map] at hb
  obtain ⟨a, _, hab⟩ := hb
  rw [← hab]
  exact toLowerByte_not_upper a

lemma head?_normalizeDomain_not_space {s : Name} {b : Nat}
    (h : (normalizeDomain s).head? = some b) : isSpaceByte b = false := by
  unfold normalizeDomain trimDot at h
  split at h
  · exact head?_trimSpace_not_space (head?_dropLast h)
  · exact head?_trimSpace_not_space h

lemma map_toLowerByte_self {l : Name} (h : ∀ b ∈ l, ¬ (65 ≤ b ∧ b ≤ 90)) :
    l.map toLowerByte = l := by
  induction l with
  | nil => rfl
  | cons a t ih =>
    have ha := h a (by simp)
    simp only [List.map_cons]
    rw [ih (fun b hb => h b (by simp [hb]))]
    unfold toLowerByte
    simp [ha]

lemma dropWhile_eq_self_of_head {p : Nat → Bool} {l : List Nat}
    (h : ∀ b, l.head? = some b → p b = false) : l.dropWhile p = l := by
  match l with
  | [] => rfl
  | a :: t =>
    have ha := h a (by simp)
    rw [List.dropWhile_cons]
    simp [ha]

lemma trimSpace_eq_self {l : Name}
    (hh : ∀ b, l.head? = some b → isSpaceByte b = false)
    (hl : ∀ b, l.getLast? = some b → isSpaceByte b = false) : trimSpace l = l := by
  unfold trimSpace
  rw [dropWhile_eq_self_of_head hh]
  rw [dropWhile_eq_self_of_head (fun b hb => hl b (by rwa [List.head?_reverse] at hb))]
  exact List.reverse_reverse l

/-- The claim C5 as written fails on the code: `normalizeDomain` removes
only a single trailing dot, so the input "a.." normalises to "a.", which
still ends in a dot, and a second normalisation strips it again, so the
function is not idempotent there.  Bytes: 97 is the letter a, 46 the dot. -/
theorem C5_counterexample :
    normalizeDomain [97, 46, 46] = [97, 46] ∧
    ([97, 46] : Name).getLast? = some dotByte ∧
    normalizeDomain (normalizeDomain [97, 46, 46]) ≠ normalizeDomain [97, 46, 46] := by
  refine ⟨by decide, by decide, by decide⟩

/-- Amended C5: every normalised name is lower-case and has no leading
whitespace; since only one trailing dot is removed (after whitespace
trimming), the result may retain a trailing dot or trailing whitespace,
and exactly when it does not, normalisation is idempotent at that input. -/
theorem C5_amended (s : Name) :
    (∀ b ∈ normalizeDomain s, ¬ (65 ≤ b ∧ b ≤ 90)) ∧
    (∀ b, (normalizeDomain s).head? = some b → isSpaceByte b = false) ∧
    ((∀ b, (normalizeDomain s).getLast? = some b →
        b ≠ dotByte ∧ isSpaceByte b = false) →
      normalizeDomain (normalizeDomain s) = normalizeDomain s) := by
  refine ⟨fun b hb => lower_normalizeDomain hb,
          fun b hb => head?_normalizeDomain_not_space hb, ?_⟩
  intro htail
  set y := normalizeDomain s with hy
  have h1 : y.map toLowerByte = y :=
    map_toLowerByte_self (fun b hb => lower_normalizeDomain (hy ▸ hb))
  have h2 : trimSpace y = y :=
    trimSpace_eq_self (fun b hb => head?_normalizeDomain_not_space (hy ▸ hb))
      (fun b hb => (htail b hb).2)
  have h3 : trimDot y = y := by
    unfold trimDot
    split
    · next hdot =>
      exact absurd rfl (htail dotByte hdot).1
    · rfl
  unfold normalizeDomain
  rw [h1, h2, h3]

/-- Witness for the amended C5 at a concrete input whose normal form ends
in an ordinary letter. -/
theorem C5_amended_witness :
    normalizeDomain (normalizeDomain [65, 66, 46]) = normalizeDomain [65, 66, 46] :=
  (C5_amended [65, 66, 46]).2.2 (by decide)

/-- The claim C1 as written fails on the code: the handler consults the
cache before the deny list.  Here the name "ads" (bytes 97 100 115) is
denied for every client, yet a previously cached upstream reply for it
is served to the client unchanged apart from the stamped id, question,
RD and CD — not the NXDOMAIN the claim requires. -/
theorem C1_counterexample :
    isBlocked serverC1 (normalizeDomain [97, 100, 115]) (some 5) = true ∧
    handleDNSRequest serverC1 0 (some 5) requestC1 =
      some (.written { cachedUpstreamC1 with id := 7, question := [⟨[97, 100, 115], 1, 1⟩] }) ∧
    ({ cachedUpstreamC1 with id := 7, question := [⟨[97, 100, 115], 1, 1⟩] } : Msg).rcode ≠
      rcodeNameError ∧
    ({ cachedUpstreamC1 with id := 7, question := [⟨[97, 100, 115], 1, 1⟩] } : Msg) ≠
      createNXDOMAINResponse requestC1 := by
  refine ⟨by decide, by decide, by decide, by decide⟩

/-- Amended C1: the pipeline evaluates the cache before policy.  On a
cache hit the cached message is written even when the name is denied for
that client; only on a cache miss does a denied name yield NXDOMAIN. -/
theorem C1_amended (s : DNSServer) (now : Nat) (clientIP : Option Nat) (r : Msg) :
    (∀ m, getCachedResponse s now r = some m →
      handleDNSRequest s now clientIP r = some (.written m)) ∧
    (∀ q qs, r.question = q :: qs → getCachedResponse s now r = none →
      isBlocked s (normalizeDomain q.qname) clientIP = true →
      handleDNSRequest s now clientIP r = some (.written (createNXDOMAINResponse r)) ∧
      (createNXDOMAINResponse r).rcode = rcodeNameError ∧
      (createNXDOMAINResponse r).aa = true) := by
  constructor
  · intro m hm
    unfold handleDNSRequest
    rw [hm]
  · intro q qs hq hmiss hblocked
    refine ⟨?_, rfl, rfl⟩
    unfold handleDNSRequest
    rw [hmiss, hq]
    simp only [hblocked, if_true]

/-- Witness for the amended C1: a denied name on a cache miss yields the
authoritative NXDOMAIN reply. -/
theorem C1_amended_witness :
    handleDNSRequest serverC1miss 0 (some 5) requestC1 =
      some (.written (createNXDOMAINResponse requestC1)) :=
  ((C1_amended serverC1miss 0 (some 5) requestC1).2 ⟨[97, 100, 115], 1, 1⟩ []
    (by decide) (by decide) (by decide)).1

/-- The empty-question claim is right and the code is wrong: nothing in
handleDNSRequest rejects a message with an empty question section.  The
cache path is safe (getCacheKey yields the empty key), but immediately
after the cache miss the source evaluates r.Question[0].Name unguarded,
an index-out-of-range fault on such a message, modelled here by the
absence of any handler action. -/
theorem C2_empty_question_faults (s : DNSServer) (now : Nat) (clientIP : Option Nat)
    (r : Msg) (h : r.question = []) :
    getCacheKey r = none ∧ getCachedResponse s now r = none ∧
    handleDNSRequest s now clientIP r = none := by
  have hk : getCacheKey r = none := by unfold getCacheKey; rw [h]
  have hc : getCachedResponse s now r = none := by
    unfold getCachedResponse
    rw [hk]
    split <;> rfl
  refine ⟨hk, hc, ?_⟩
  unfold handleDNSRequest
  rw [hc, h]

/-- Witness for C2 at a concrete empty-question message. -/
theorem C2_witness :
    handleDNSRequest ⟨⟨60, 300⟩, [], [], [], [], 0⟩ 0 none emptyMsg = none :=
  (C2_empty_question_faults ⟨⟨60, 300⟩, [], [], [], [], 0⟩ 0 none emptyMsg rfl).2.2

/-- C10: an overwrite whose stored string is not a valid A-record target
(load-time parsing only rejects the empty string) is silently skipped:
dns.NewRR fails, no reply and no error are produced, and the handler
falls through to upstream forwarding. -/
theorem C10_invalid_override_ip (s : DNSServer) (now : Nat) (clientIP : Option Nat)
    (r : Msg) (q : Question) (qs : List Question) (ip : String)
    (hq : r.question = q :: qs)
    (hmiss : getCachedResponse s now r = none)
    (hnb : isBlocked s (normalizeDomain q.qname) clientIP = false)
    (hov : getOverwrite s (normalizeDomain q.qname) clientIP = some ip)
    (hbad : isIPv4String ip = false) :
    handleDNSRequest s now clientIP r = some (.forwarded (normalizeDomain q.qname)) ∧
    (∀ d v, v ≠ "" →
      parseOverwritesSimple [(d, v)] = Except.ok [(normalizeDomain d, ⟨v, [], []⟩)]) := by
  constructor
  · unfold handleDNSRequest
    rw [hmiss, hq]
    simp only [hnb, Bool.false_eq_true, if_false]
    rw [hov]
    unfold newRR_A
    simp only [hbad, Bool.false_eq_true, if_false]
  · intro d v hv
    unfold parseOverwritesSimple
    simp only [hv, if_false]
    rfl

/-- Witness for C10: an overwrite mapping the name "a" to the IPv6
string "::1" matches, fails to parse as an A target, and the query is
forwarded upstream. -/
theorem C10_witness :
    handleDNSRequest serverC10 0 (some 1) requestC10 =
      some (.forwarded (normalizeDomain [97])) :=
  (C10_invalid_override_ip serverC10 0 (some 1) requestC10 ⟨[97], 1, 1⟩ [] "::1"
    (by decide) (by decide) (by decide) (by decide) (by decide)).1

lemma findEntry_setEntry (c : Cache) (k : CacheKey) (e : CacheEntry) :
    findEntry (setEntry c k e) k = some e := by
  induction c with
  | nil => simp [setEntry, findEntry]
  | cons p t ih =>
    obtain ⟨k', e'⟩ := p
    by_cases h : k' = k
    · simp [setEntry, findEntry, h]
    · simp [setEntry, findEntry, h, ih]

lemma foldl_ttl_le (l : List RR) :
    ∀ t0 : Int,
      l.foldl (fun t rr => if 0 < rr.ttl ∧ (rr.ttl : Int) < t then (rr.ttl : Int) else t) t0 ≤
        t0 := by
  induction l with
  | nil => intro t0; simp
  | cons rr t ih =>
    intro t0
    simp only [List.foldl_cons]
    refine le_trans (ih _) ?_
    split
    · next h => exact le_of_lt h.2
    · exact le_refl _

lemma firstSOAMin_ne_nil {l : List RR} {m : Nat} (h : firstSOAMin l = some m) :
    l.isEmpty = false := by
  cases l with
  | nil => simp [firstSOAMin] at h
  | cons rr t => rfl

lemma getCachedResponse_mk (cfg : Config) (bl : List (Name × BlockEntry))
    (ov : List (Name × OverwriteEntry)) (nss : List NameserverConfig) (c : Cache)
    (maxs : Nat) (now2 : Nat) (r2 : Msg) (key : CacheKey) (e : CacheEntry)
    (hk2 : getCacheKey r2 = some key)
    (hen : ¬ (cfg.cacheTTL ≤ 0 ∧ cfg.negativeCacheTTL ≤ 0))
    (hfind : findEntry c key = some e)
    (hex : ¬ (e.expiresAt < now2)) :
    getCachedResponse ⟨cfg, bl, ov, nss, c, maxs⟩ now2 r2 =
      some { e.message with
             id := r2.id, question := r2.question, rd := r2.rd, cd := r2.cd } := by
  unfold getCachedResponse
  rw [if_neg hen]
  rw [hk2]
  show (match findEntry c key with
        | none => none
        | some entry =>
          if entry.expiresAt < now2 then none
          else some { entry.message with
                      id := r2.id, question := r2.question,
                      rd := r2.rd, cd := r2.cd }) = _
  rw [hfind]
  dsimp only
  rw [if_neg hex]

/-- The negative-TTL claim C4 fails on the code at MINIMUM = 0: the SOA
minimum is adopted only when positive, and the fallback scan over the
authority-record header TTLs runs whenever the TTL is still the
configured value — also when a SOA is present.  Here the reply carries a
SOA with MINIMUM 0 and header TTL 10: the claim demands a stored TTL of
at most min(300, 0) = 0, i.e. no caching, but the code stores the entry
with TTL 10, adopted from the header TTL by the fallback scan. -/
theorem C4_counterexample :
    negativeCacheTTLValue 300 [⟨[98], 10, RData.soa 0⟩] = 10 ∧
    firstSOAMin [⟨[98], 10, RData.soa 0⟩] = some 0 ∧
    ¬ ((10 : Int) ≤ min 300 0) ∧
    findEntry (setCachedResponse serverC4 0 requestC4 respC4).cache ([98], 1, 1) =
      some ⟨respC4, 10⟩ := by
  refine ⟨by decide, by decide, by decide, by decide⟩

/-- Amended C4: the stored TTL starts at negative_ttl_s and adopts the
first SOA MINIMUM m when 0 < m < negative_ttl_s; the fallback scan over
positive authority-record header TTLs runs exactly when the TTL still
equals negative_ttl_s after the SOA step (hence also for a SOA whose
MINIMUM is zero or not smaller); for m ≥ 1 the stored TTL is at most
min(negative_ttl_s, m), and nothing is cached when the result is below
one second. -/
theorem C4_amended (s : DNSServer) (now : Nat) (resp : Msg) (key : CacheKey) (m : Nat)
    (hm : firstSOAMin resp.ns = some m) (hmpos : 0 < m) :
    negativeCacheTTLValue s.config.negativeCacheTTL resp.ns ≤
      min s.config.negativeCacheTTL (m : Int) ∧
    ((m : Int) < s.config.negativeCacheTTL →
      negativeCacheTTLValue s.config.negativeCacheTTL resp.ns = (m : Int)) ∧
    (negativeCacheTTLValue s.config.negativeCacheTTL resp.ns < 1 →
      (cacheNegativeResponse s now resp key).cache = s.cache) ∧
    (1 ≤ negativeCacheTTLValue s.config.negativeCacheTTL resp.ns →
      0 < s.config.negativeCacheTTL →
      findEntry (cacheNegativeResponse s now resp key).cache key =
        some ⟨resp, now + (negativeCacheTTLValue s.config.negativeCacheTTL resp.ns).toNat⟩) := by
  set neg := s.config.negativeCacheTTL with hneg
  have hne : resp.ns.isEmpty = false := firstSOAMin_ne_nil hm
  have hvalA : (m : Int) < neg → negativeCacheTTLValue neg resp.ns = (m : Int) := by
    intro hlt
    unfold negativeCacheTTLValue
    rw [hne]
    simp only [Bool.false_eq_true, if_false, hm]
    rw [if_pos (show 0 < m ∧ (m : Int) < neg from ⟨hmpos, hlt⟩)]
    rw [if_neg (show ¬ ((m : Int) = neg) from ne_of_lt hlt)]
  have hvalB : ¬ (m : Int) < neg →
      negativeCacheTTLValue neg resp.ns =
        resp.ns.foldl
          (fun t rr => if 0 < rr.ttl ∧ (rr.ttl : Int) < t then (rr.ttl : Int) else t) neg := by
    intro hlt
    unfold negativeCacheTTLValue
    rw [hne]
    simp only [Bool.false_eq_true, if_false, hm]
    rw [if_neg (show ¬ (0 < m ∧ (m : Int) < neg) from fun hco => hlt hco.2)]
    rw [if_pos (rfl : neg = neg)]
  have hbound : negativeCacheTTLValue neg resp.ns ≤ min neg (m : Int) := by
    by_cases hlt : (m : Int) < neg
    · rw [hvalA hlt]
      exact le_min (le_of_lt hlt) (le_refl _)
    · rw [hvalB hlt]
      refine le_trans (foldl_ttl_le _ _) ?_
      exact le_min (le_refl _) (le_of_not_lt hlt)
  have hskip : negativeCacheTTLValue neg resp.ns < 1 →
      (cacheNegativeResponse s now resp key).cache = s.cache := by
    intro hv
    unfold cacheNegativeResponse
    rw [← hneg]
    by_cases h0 : neg ≤ 0
    · rw [if_pos h0]
    · rw [if_neg h0, if_pos hv]
  have hstore : 1 ≤ negativeCacheTTLValue neg resp.ns → 0 < neg →
      findEntry (cacheNegativeResponse s now resp key).cache key =
        some ⟨resp, now + (negativeCacheTTLValue neg resp.ns).toNat⟩ := by
    intro hv h0
    unfold cacheNegativeResponse
    rw [← hneg]
    rw [if_neg (by omega), if_neg (by omega)]
    show findEntry (storeEntry s.maxCacheSize s.cache key _) key = _
    unfold storeEntry
    rw [findEntry_setEntry]
  refine ⟨hbound, ?_, hskip, hstore⟩
  intro hlt
  exact hvalA hlt

/-- Witness for the amended C4: negative_ttl_s = 300 and a SOA with
MINIMUM 120 yield a stored entry with TTL bounded by min(300, 120). -/
theorem C4_amended_witness :
    negativeCacheTTLValue serverC4.config.negativeCacheTTL respC4w.ns ≤
      min serverC4.config.negativeCacheTTL ((120 : Nat) : Int) ∧
    findEntry (cacheNegativeResponse serverC4 0 respC4w ([98], 1, 1)).cache ([98], 1, 1) =
      some ⟨respC4w,
            0 + (negativeCacheTTLValue serverC4.config.negativeCacheTTL respC4w.ns).toNat⟩ :=
  ⟨(C4_amended serverC4 0 respC4w ([98], 1, 1) 120 (by decide) (by decide)).1,
   (C4_amended serverC4 0 respC4w ([98], 1, 1) 120 (by decide) (by decide)).2.2.2
     (by decide) (by decide)⟩

/-- C6: a cache round trip preserves everything but the per-request
stamps: when put(Q, R) stores an entry, a get within the TTL returns R
with only the id, question, RD and CD taken from the requesting query;
RCODE, all other flags and the answer, authority and additional sections
are returned unchanged. -/
theorem C6_cache_round_trip (s : DNSServer) (now now2 : Nat) (r r2 resp : Msg)
    (key : CacheKey)
    (hk : getCacheKey r = some key) (hk2 : getCacheKey r2 = some key)
    (hval : validateResponse r resp = true)
    (hcfg : if isNegativeResponse resp then 0 < s.config.negativeCacheTTL
            else 0 < s.config.cacheTTL ∧ resp.rcode = rcodeSuccess ∧ resp.answer ≠ [])
    (httl : 1 ≤ storedTTLValue s.config resp)
    (htime : now2 ≤ now + (storedTTLValue s.config resp).toNat) :
    getCachedResponse (setCachedResponse s now r resp) now2 r2 =
      some { resp with
             id := r2.id, question := r2.question, rd := r2.rd, cd := r2.cd } := by
  obtain ⟨cfg, bl, ov, nss, c, maxs⟩ := s
  unfold setCachedResponse
  rw [hk]
  rw [hval]
  simp only [not_true, if_false]
  cases hneg : isNegativeResponse resp with
  | true =>
    simp only [hneg, if_true]
    simp only [hneg, if_true] at hcfg
    have hst : storedTTLValue cfg resp = negativeCacheTTLValue cfg.negativeCacheTTL resp.ns := by
      unfold storedTTLValue
      rw [hneg]
      simp
    rw [hst] at httl htime
    unfold cacheNegativeResponse
    rw [if_neg (by omega : ¬ (cfg.negativeCacheTTL ≤ 0))]
    rw [if_neg (by omega : ¬ (negativeCacheTTLValue cfg.negativeCacheTTL resp.ns < 1))]
    refine getCachedResponse_mk cfg bl ov nss
      (storeEntry maxs c key ⟨resp, now + (negativeCacheTTLValue cfg.negativeCacheTTL resp.ns).toNat⟩)
      maxs now2 r2 key ⟨resp, now + (negativeCacheTTLValue cfg.negativeCacheTTL resp.ns).toNat⟩
      hk2 ?_ ?_ ?_
    · intro hco
      omega
    · unfold storeEntry
      exact findEntry_setEntry _ _ _
    · show ¬ (now + (negativeCacheTTLValue cfg.negativeCacheTTL resp.ns).toNat < now2)
      omega
  | false =>
    simp only [hneg, Bool.false_eq_true, if_false]
    simp only [hneg, Bool.false_eq_true, if_false] at hcfg
    obtain ⟨hpos, hrc, hans⟩ := hcfg
    have hst : storedTTLValue cfg resp = positiveCacheTTLValue cfg.cacheTTL resp.answer := by
      unfold storedTTLValue
      rw [hneg]
      simp
    rw [hst] at httl htime
    unfold cachePositiveResponse
    rw [if_neg (by omega : ¬ (cfg.cacheTTL ≤ 0))]
    rw [if_neg (by simp [hrc, List.isEmpty_iff, hans])]
    rw [if_neg (by omega : ¬ (positiveCacheTTLValue cfg.cacheTTL resp.answer < 1))]
    refine getCachedResponse_mk cfg bl ov nss
      (storeEntry maxs c key ⟨resp, now + (positiveCacheTTLValue cfg.cacheTTL resp.answer).toNat⟩)
      maxs now2 r2 key ⟨resp, now + (positiveCacheTTLValue cfg.cacheTTL resp.answer).toNat⟩
      hk2 ?_ ?_ ?_
    · intro hco
      omega
    · unfold storeEntry
      exact findEntry_setEntry _ _ _
    · show ¬ (now + (positiveCacheTTLValue cfg.cacheTTL resp.answer).toNat < now2)
      omega

/-- Witness for C6: a stored positive reply is returned to a later query
with the new id and CD flag, all other fields untouched. -/
theorem C6_witness :
    getCachedResponse (setCachedResponse serverC6 0 requestC6 respC6) 30 request2C6 =
      some { respC6 with
             id := request2C6.id, question := request2C6.question,
             rd := request2C6.rd, cd := request2C6.cd } :=
  C6_cache_round_trip serverC6 0 30 requestC6 request2C6 respC6 ([97], 1, 1)
    (by decide) (by decide) (by decide) (by decide) (by decide) (by decide)

lemma oldestAux_spec :
    ∀ (t : Cache) (bk : CacheKey) (bt : Nat),
      (oldestAux (bk, bt) t).2 ≤ bt ∧
      (∀ p ∈ t, (oldestAux (bk, bt) t).2 ≤ p.2.expiresAt) ∧
      (oldestAux (bk, bt) t = (bk, bt) ∨
        ∃ e, ((oldestAux (bk, bt) t).1, e) ∈ t ∧
          e.expiresAt = (oldestAux (bk, bt) t).2) := by
  intro t
  induction t with
  | nil =>
    intro bk bt
    exact ⟨le_refl _, by simp, Or.inl rfl⟩
  | cons p t ih =>
    intro bk bt
    obtain ⟨k', e'⟩ := p
    by_cases h : e'.expiresAt < bt
    · have hstep : oldestAux (bk, bt) ((k', e') :: t) = oldestAux (k', e'.expiresAt) t := by
        simp only [oldestAux]
        rw [if_pos h]
      obtain ⟨h1, h2, h3⟩ := ih k' e'.expiresAt
      rw [hstep]
      refine ⟨le_trans h1 (le_of_lt h), ?_, ?_⟩
      · intro p hp
        rcases List.mem_cons.mp hp with hp | hp
        · rw [hp]
          exact h1
        · exact h2 p hp
      · rcases h3 with h3 | ⟨e, he, hexp⟩
        · refine Or.inr ⟨e', ?_, ?_⟩
          · rw [h3]
            exact List.mem_cons_self _ _
          · rw [h3]
        · exact Or.inr ⟨e, List.mem_cons_of_mem _ he, hexp⟩
    · have hstep : oldestAux (bk, bt) ((k', e') :: t) = oldestAux (bk, bt) t := by
        simp only [oldestAux]
        rw [if_neg h]
      obtain ⟨h1, h2, h3⟩ := ih bk bt
      rw [hstep]
      refine ⟨h1, ?_, ?_⟩
      · intro p hp
        rcases List.mem_cons.mp hp with hp | hp
        · rw [hp]
          exact le_trans h1 (le_of_not_lt h)
        · exact h2 p hp
      · rcases h3 with h3 | ⟨e, he, hexp⟩
        · exact Or.inl h3
        · exact Or.inr ⟨e, List.mem_cons_of_mem _ he, hexp⟩

lemma eraseEntry_length :
    ∀ (c : Cache) (k : CacheKey), k ∈ c.map Prod.fst →
      (eraseEntry c k).length + 1 = c.length := by
  intro c
  induction c with
  | nil => intro k hk; simp at hk
  | cons p t ih =>
    intro k hk
    obtain ⟨k', e'⟩ := p
    unfold eraseEntry
    by_cases h : k' = k
    · rw [if_pos h]
      simp
    · rw [if_neg h]
      have hk' : k ∈ t.map Prod.fst := by
        rcases List.mem_cons.mp hk with hx | hx
        · exact absurd hx.symm h
        · exact hx
      simp only [List.length_cons]
      rw [← ih k hk']

lemma setEntry_length (k : CacheKey) (e : CacheEntry) :
    ∀ c : Cache, (setEntry c k e).length = c.length ∨
      (setEntry c k e).length = c.length + 1 := by
  intro c
  induction c with
  | nil => exact Or.inr rfl
  | cons p t ih =>
    obtain ⟨k', e'⟩ := p
    unfold setEntry
    by_cases h : k' = k
    · rw [if_pos h]
      exact Or.inl rfl
    · rw [if_neg h]
      simp only [List.length_cons]
      rcases ih with ih | ih
      · exact Or.inl (by rw [ih])
      · exact Or.inr (by rw [ih])

lemma evictOldest_spec (c : Cache) (hne : c ≠ []) :
    ∃ k e, (k, e) ∈ c ∧ (∀ p ∈ c, e.expiresAt ≤ p.2.expiresAt) ∧
      evictOldestCacheEntry c = eraseEntry c k ∧
      (evictOldestCacheEntry c).length + 1 = c.length := by
  match c, hne with
  | (k0, e0) :: t, _ =>
    obtain ⟨h1, h2, h3⟩ := oldestAux_spec t k0 e0.expiresAt
    have hkey : ∃ e, ((oldestAux (k0, e0.expiresAt) t).1, e) ∈ (k0, e0) :: t ∧
        e.expiresAt = (oldestAux (k0, e0.expiresAt) t).2 := by
      rcases h3 with h3 | ⟨e, he, hexp⟩
      · refine ⟨e0, ?_, ?_⟩
        · rw [h3]
          exact List.mem_cons_self _ _
        · rw [h3]
      · exact ⟨e, List.mem_cons_of_mem _ he, hexp⟩
    obtain ⟨e, hmem, hexp⟩ := hkey
    refine ⟨(oldestAux (k0, e0.expiresAt) t).1, e, hmem, ?_, rfl, ?_⟩
    · intro p hp
      rw [hexp]
      rcases List.mem_cons.mp hp with hp | hp
      · rw [hp]
        exact h1
      · exact h2 p hp
    · show (eraseEntry ((k0, e0) :: t) (oldestAux (k0, e0.expiresAt) t).1).length + 1 = _
      refine eraseEntry_length _ _ ?_
      rcases List.mem_cons.mp hmem with hx | hx
      · rw [show (oldestAux (k0, e0.expiresAt) t).1 = k0 from congrArg Prod.fst hx]
        simp
      · exact List.mem_map.mpr
          ⟨((oldestAux (k0, e0.expiresAt) t).1, e), List.mem_cons_of_mem _ hx, rfl⟩

lemma storeEntry_length_le (maxSize : Nat) (c : Cache) (k : CacheKey) (e : CacheEntry)
    (hpos : 0 < maxSize) (hle : c.length ≤ maxSize) :
    (storeEntry maxSize c k e).length ≤ maxSize := by
  unfold storeEntry
  by_cases hcap : maxSize ≤ c.length
  · rw [if_pos ⟨hpos, hcap⟩]
    have hne : c ≠ [] := by
      intro he
      rw [he] at hcap
      simp at hcap
      omega
    obtain ⟨_, _, _, _, _, hlen⟩ := evictOldest_spec c hne
    rcases setEntry_length k e (evictOldestCacheEntry c) with h | h <;> omega
  · rw [if_neg (fun hco => hcap hco.2)]
    rcases setEntry_length k e c with h | h <;> omega

lemma cacheNegativeResponse_length (s : DNSServer) (now : Nat) (resp : Msg)
    (key : CacheKey) (hpos : 0 < s.maxCacheSize) (hle : s.cache.length ≤ s.maxCacheSize) :
    (cacheNegativeResponse s now resp key).cache.length ≤ s.maxCacheSize := by
  unfold cacheNegativeResponse
  split
  · exact hle
  · split
    · exact hle
    · exact storeEntry_length_le _ _ _ _ hpos hle

lemma cachePositiveResponse_length (s : DNSServer) (now : Nat) (resp : Msg)
    (key : CacheKey) (hpos : 0 < s.maxCacheSize) (hle : s.cache.length ≤ s.maxCacheSize) :
    (cachePositiveResponse s now resp key).cache.length ≤ s.maxCacheSize := by
  unfold cachePositiveResponse
  split
  · exact hle
  · split
    · exact hle
    · split
      · exact hle
      · exact storeEntry_length_le _ _ _ _ hpos hle

/-- C7: when max_entries > 0, an insertion at capacity first removes
exactly one entry, and the removed entry has the smallest expires_at
among all entries; consequently put preserves the bound of max_entries
entries, as does the sweeper (get does not mutate the cache at all, it
is a pure read in this model). -/
theorem C7_eviction_and_cap (c : Cache) (now : Nat) (s : DNSServer) (r resp : Msg) :
    (c ≠ [] → ∃ k e, (k, e) ∈ c ∧ (∀ p ∈ c, e.expiresAt ≤ p.2.expiresAt) ∧
      evictOldestCacheEntry c = eraseEntry c k ∧
      (evictOldestCacheEntry c).length + 1 = c.length) ∧
    (0 < s.maxCacheSize → s.cache.length ≤ s.maxCacheSize →
      (setCachedResponse s now r resp).cache.length ≤ s.maxCacheSize) ∧
    (cleanupExpiredCache now c).length ≤ c.length := by
  refine ⟨evictOldest_spec c, ?_, List.length_filter_le _ _⟩
  intro hpos hle
  unfold setCachedResponse
  cases getCacheKey r with
  | none => exact hle
  | some key =>
    dsimp only
    split
    · exact hle
    · split
      · exact cacheNegativeResponse_length s now resp key hpos hle
      · exact cachePositiveResponse_length s now resp key hpos hle

/-- Witness for C7: a put of a fresh key into a full two-entry cache
evicts once and keeps the cache at its cap. -/
theorem C7_witness :
    (∃ k e, (k, e) ∈ cacheC7 ∧ (∀ p ∈ cacheC7, e.expiresAt ≤ p.2.expiresAt) ∧
      evictOldestCacheEntry cacheC7 = eraseEntry cacheC7 k ∧
      (evictOldestCacheEntry cacheC7).length + 1 = cacheC7.length) ∧
    (setCachedResponse serverC7 0 requestC7 respC7).cache.length ≤ 2 :=
  ⟨(C7_eviction_and_cap cacheC7 0 serverC7 requestC7 respC7).1 (by decide),
   (C7_eviction_and_cap cacheC7 0 serverC7 requestC7 respC7).2.1 (by decide) (by decide)⟩

/-- C3: in a coalescing round for one fingerprint the upstream is called
at most once; every one of the N arrivals receives a reply carrying its
own transaction id and question; and all replies agree in content once
the per-client id and question are erased — the one upstream result when
it exists, a synthesized authoritative NXDOMAIN otherwise. -/
theorem C3_single_flight (requests : List Msg) (upstream : Option Msg) :
    (coalesceRound requests upstream).1 ≤ 1 ∧
    (coalesceRound requests upstream).2.length = requests.length ∧
    (∀ i : Nat, ((coalesceRound requests upstream).2[i]?).map Msg.id =
      (requests[i]?).map Msg.id) ∧
    (∀ i : Nat, ((coalesceRound requests upstream).2[i]?).map Msg.question =
      (requests[i]?).map Msg.question) ∧
    (∀ m1 ∈ (coalesceRound requests upstream).2,
      ∀ m2 ∈ (coalesceRound requests upstream).2, contentOf m1 = contentOf m2) ∧
    (∀ u, upstream = some u →
      ∀ m ∈ (coalesceRound requests upstream).2, contentOf m = contentOf u) ∧
    (upstream = none →
      ∀ m ∈ (coalesceRound requests upstream).2,
        m.rcode = rcodeNameError ∧ m.aa = true) := by
  cases requests with
  | nil =>
    refine ⟨by simp [coalesceRound], by simp [coalesceRound], ?_, ?_, ?_, ?_, ?_⟩ <;>
      simp [coalesceRound]
  | cons leader waiters =>
    have hrep : (coalesceRound (leader :: waiters) upstream).2 =
        sendResponseMsg leader (coalesceResp leader upstream) ::
          waiters.map (fun wr =>
            sendResponseMsg wr (notifyWaiterMsg leader (coalesceResp leader upstream))) := rfl
    have hcontent : ∀ m ∈ (coalesceRound (leader :: waiters) upstream).2,
        contentOf m = contentOf (coalesceResp leader upstream) := by
      intro m hm
      rw [hrep] at hm
      rcases List.mem_cons.mp hm with hm | hm
      · rw [hm]
        rfl
      · obtain ⟨wr, _, hw⟩ := List.mem_map.mp hm
        rw [← hw]
        rfl
    refine ⟨le_refl 1, ?_, ?_, ?_, ?_, ?_, ?_⟩
    · rw [hrep]
      simp
    · intro i
      rw [hrep]
      cases i with
      | zero =>
        simp only [List.getElem?_cons_zero]
        rfl
      | succ j =>
        simp only [List.getElem?_cons_succ, List.getElem?_map]
        cases waiters[j]? <;> rfl
    · intro i
      rw [hrep]
      cases i with
      | zero =>
        simp only [List.getElem?_cons_zero]
        rfl
      | succ j =>
        simp only [List.getElem?_cons_succ, List.getElem?_map]
        cases waiters[j]? <;> rfl
    · intro m1 h1 m2 h2
      rw [hcontent m1 h1, hcontent m2 h2]
    · intro u hu m hm
      have h := hcontent m hm
      rw [hu] at h
      exact h
    · intro hu m hm
      have h := hcontent m hm
      rw [hu] at h
      exact ⟨congrArg Msg.rcode h, congrArg Msg.aa h⟩

/-- Witness for C3: with two arrivals and one upstream reply, the
upstream is called once, the waiter reply carries the waiter id, and its
content equals the upstream content. -/
theorem C3_witness :
    (coalesceRound [leaderC3, waiterC3] (some upstreamC3)).1 ≤ 1 ∧
    ((coalesceRound [leaderC3, waiterC3] (some upstreamC3)).2[1]?).map Msg.id =
      (([leaderC3, waiterC3] : List Msg)[1]?).map Msg.id ∧
    contentOf (sendResponseMsg waiterC3 (notifyWaiterMsg leaderC3 upstreamC3)) =
      contentOf upstreamC3 :=
  ⟨(C3_single_flight [leaderC3, waiterC3] (some upstreamC3)).1,
   (C3_single_flight [leaderC3, waiterC3] (some upstreamC3)).2.2.1 1,
   (C3_single_flight [leaderC3, waiterC3] (some upstreamC3)).2.2.2.2.2.1 upstreamC3 rfl
     (sendResponseMsg waiterC3 (notifyWaiterMsg leaderC3 upstreamC3)) (by decide)⟩

lemma tryLoop_eq (attempt : Nat → Option Msg) (n start : Nat) :
    ∀ (rem i : Nat),
      tryLoop attempt n start i rem =
        ((List.range rem).map (fun j => (start + (i + j)) % n)).findSome? attempt := by
  intro rem
  induction rem with
  | zero => intro i; rfl
  | succ rr ih =>
    intro i
    have hstep : tryLoop attempt n start i (rr + 1) =
        match attempt ((start + i) % n) with
        | some resp => some resp
        | none => tryLoop attempt n start (i + 1) rr := rfl
    rw [hstep, List.range_succ_eq_map, List.map_cons, List.map_map, List.findSome?_cons]
    simp only [Nat.add_zero]
    have hmap : (List.range rr).map ((fun j => (start + (i + j)) % n) ∘ Nat.succ) =
        (List.range rr).map (fun j => (start + (i + 1 + j)) % n) := by
      apply List.map_congr_left
      intro a _
      show (start + (i + (a + 1))) % n = (start + (i + 1 + a)) % n
      rw [show i + (a + 1) = i + 1 + a by omega]
    rw [hmap, ← ih (i + 1)]
    cases h : attempt ((start + i) % n) <;> simp [h]

lemma window_count (c N e : Nat) (hN : 0 < N) (he : e < N) :
    ((List.range N).map (fun k => (c + k) % N)).count e = 1 := by
  have ha : c % N < N := Nat.mod_lt _ hN
  have hK : (e + N - c % N) % N < N := Nat.mod_lt _ hN
  have key : ∀ k, k < N → ((c + k) % N = e ↔ k = (e + N - c % N) % N) := by
    intro k hk
    have h1 : (c + k) % N = (c % N + k) % N := by
      conv_lhs => rw [Nat.add_mod]
      rw [Nat.mod_eq_of_lt hk]
    have h2 : (c % N + k) % N = if c % N + k < N then c % N + k else c % N + k - N := by
      by_cases hlt : c % N + k < N
      · rw [if_pos hlt, Nat.mod_eq_of_lt hlt]
      · rw [if_neg hlt, Nat.mod_eq_sub_mod (by omega), Nat.mod_eq_of_lt (by omega)]
    have h3 : (e + N - c % N) % N =
        if e + N - c % N < N then e + N - c % N else e + N - c % N - N := by
      by_cases hlt : e + N - c % N < N
      · rw [if_pos hlt, Nat.mod_eq_of_lt hlt]
      · rw [if_neg hlt, Nat.mod_eq_sub_mod (by omega), Nat.mod_eq_of_lt (by omega)]
    rw [h1, h2, h3]
    split <;> split <;> omega
  rw [List.count_eq_countP, List.countP_map]
  have hcong : List.countP ((fun x => x == e) ∘ fun k => (c + k) % N) (List.range N) =
      List.countP (fun k => k == (e + N - c % N) % N) (List.range N) := by
    apply List.countP_congr
    intro k hk
    simp only [Function.comp_apply, beq_iff_eq]
    exact key k (List.mem_range.mp hk)
  rw [hcong, ← List.count_eq_countP]
  exact List.count_eq_one_of_mem (List.nodup_range N) (List.mem_range.mpr hK)

lemma window_count_mul (N e : Nat) (hN : 0 < N) (he : e < N) :
    ∀ (m c : Nat), ((List.range (m * N)).map (fun k => (c + k) % N)).count e = m := by
  intro m
  induction m with
  | zero => intro c; simp
  | succ mm ih =>
    intro c
    rw [Nat.succ_mul, List.range_add, List.map_append, List.count_append, ih c]
    have hshift : (List.range N).map ((fun k => (c + k) % N) ∘ fun x => mm * N + x) =
        (List.range N).map (fun k => (c + mm * N + k) % N) := by
      apply List.map_congr_left
      intro a _
      show (c + (mm * N + a)) % N = (c + mm * N + a) % N
      rw [← Nat.add_assoc]
    rw [List.map_map, hshift, window_count (c + mm * N) N e hN he]

/-- The fairness consequence of C8 as written fails on the code at the
64-bit wraparound of the round-robin counter: with 3 endpoints and a
window of 9 consecutive forwards starting at counter value 2^64 - 1,
endpoint 0 is the starting index 4 times, not 3. -/
theorem C8_counterexample :
    ((List.range (3 * nsList3C8.length)).map
      (fun k => startIdx (2 ^ 64 - 1 + k) nsList3C8.length)).count 0 = 4 := by
  decide

/-- Amended C8: the starting index of a forward is the shared 64-bit
counter value modulo the endpoint count; endpoints are tried in wrapped
order from that index and the first reply wins, none after N failures;
and over 3N consecutive forwards whose counter window does not cross the
64-bit wraparound, each endpoint is the starting index exactly 3 times. -/
theorem C8_round_robin (exchange : ExchangeFun) (r : Msg) (ns : List NameserverConfig)
    (c : Nat) (h : ns ≠ []) :
    (forwardDirectInternal exchange r ns c =
      ((List.range ns.length).map
        (fun i => (startIdx c ns.length + i) % ns.length)).findSome?
        (fun idx => (tryForwardToNameserver exchange r (ns.getD idx defaultNS)).1)) ∧
    ((∀ i, i < ns.length →
        (tryForwardToNameserver exchange r (ns.getD i defaultNS)).1 = none) →
      forwardDirectInternal exchange r ns c = none) ∧
    (∀ e, e < ns.length → c + 3 * ns.length ≤ 2 ^ 64 →
      ((List.range (3 * ns.length)).map (fun k => startIdx (c + k) ns.length)).count e = 3) := by
  have hlen : 0 < ns.length := List.length_pos.mpr h
  have h1 : forwardDirectInternal exchange r ns c =
      ((List.range ns.length).map
        (fun i => (startIdx c ns.length + i) % ns.length)).findSome?
        (fun idx => (tryForwardToNameserver exchange r (ns.getD idx defaultNS)).1) := by
    unfold forwardDirectInternal
    rw [if_neg (by simpa [List.isEmpty_iff] using h)]
    rw [tryLoop_eq]
    have hmap : (List.range ns.length).map
        (fun j => (startIdx c ns.length + (0 + j)) % ns.length) =
        (List.range ns.length).map (fun i => (startIdx c ns.length + i) % ns.length) := by
      apply List.map_congr_left
      intro a _
      rw [Nat.zero_add]
    rw [hmap]
  refine ⟨h1, ?_, ?_⟩
  · intro hall
    rw [h1]
    apply List.findSome?_eq_none_iff.mpr
    intro x hx
    obtain ⟨i, _, hxe⟩ := List.mem_map.mp hx
    exact hall x (hxe ▸ Nat.mod_lt _ hlen)
  · intro e he hnw
    have hcong : (List.range (3 * ns.length)).map (fun k => startIdx (c + k) ns.length) =
        (List.range (3 * ns.length)).map (fun k => (c + k) % ns.length) := by
      apply List.map_congr_left
      intro k hk
      have hk' : k < 3 * ns.length := List.mem_range.mp hk
      unfold startIdx
      rw [Nat.mod_eq_of_lt
        (lt_of_lt_of_le (by omega : c + k < c + 3 * ns.length) hnw)]
    rw [hcong, window_count_mul ns.length e hlen he 3 c]

/-- Witness for C8 with two endpoints and counter value 5: the forward
equals the wrapped first-success scan, and endpoint 0 is the starting
index exactly 3 times over 6 consecutive forwards. -/
theorem C8_witness :
    (forwardDirectInternal exchangeC8 requestC8 nsListC8 5 =
      ((List.range nsListC8.length).map
        (fun i => (startIdx 5 nsListC8.length + i) % nsListC8.length)).findSome?
        (fun idx =>
          (tryForwardToNameserver exchangeC8 requestC8 (nsListC8.getD idx defaultNS)).1)) ∧
    ((List.range (3 * nsListC8.length)).map
      (fun k => startIdx (5 + k) nsListC8.length)).count 0 = 3 :=
  ⟨(C8_round_robin exchangeC8 requestC8 nsListC8 5 (by decide)).1,
   (C8_round_robin exchangeC8 requestC8 nsListC8 5 (by decide)).2.2 0 (by decide) (by decide)⟩

/-- C9: when a validated UDP reply arrives truncated, the forwarder
retries the same endpoint address over TCP with a fresh 5-second
timeout; the endpoint result is the TCP reply exactly when that reply
validates, and the endpoint counts as failed otherwise — so a valid
untruncated TCP reply becomes the answer, with TC=0 and the TCP
content. -/
theorem C9_truncation_fallback (exchange : ExchangeFun) (r : Msg)
    (ns : NameserverConfig) (u : Msg)
    (hproto : ns.protocol = "udp")
    (hudp : exchange "udp" (joinHostPort ns.address ns.port) 5 = some u)
    (hval : validateResponse r u = true)
    (htc : u.tc = true) :
    (tryForwardToNameserver exchange r ns).2 =
      [⟨"udp", joinHostPort ns.address ns.port, 5⟩,
       ⟨"tcp", joinHostPort ns.address ns.port, 5⟩] ∧
    (tryForwardToNameserver exchange r ns).1 =
      handleTruncatedResponse exchange r (joinHostPort ns.address ns.port) ∧
    (∀ t, exchange "tcp" (joinHostPort ns.address ns.port) 5 = some t →
      validateResponse r t = true →
      (tryForwardToNameserver exchange r ns).1 = some t) ∧
    (∀ t, exchange "tcp" (joinHostPort ns.address ns.port) 5 = some t →
      validateResponse r t = false →
      (tryForwardToNameserver exchange r ns).1 = none) ∧
    (exchange "tcp" (joinHostPort ns.address ns.port) 5 = none →
      (tryForwardToNameserver exchange r ns).1 = none) := by
  have hfwd : forwardToNameserver exchange ns (joinHostPort ns.address ns.port) =
      (exchange "udp" (joinHostPort ns.address ns.port) 5,
       ⟨"udp", joinHostPort ns.address ns.port, 5⟩) := by
    unfold forwardToNameserver
    rw [hproto]
    rw [if_neg (by decide), if_neg (by decide), if_neg (by decide)]
  have htry : tryForwardToNameserver exchange r ns =
      (handleTruncatedResponse exchange r (joinHostPort ns.address ns.port),
       [⟨"udp", joinHostPort ns.address ns.port, 5⟩,
        ⟨"tcp", joinHostPort ns.address ns.port, 5⟩]) := by
    unfold tryForwardToNameserver
    rw [hfwd]
    dsimp only
    rw [hudp]
    dsimp only
    rw [if_neg (show ¬ ¬ (validateResponse r u = true) from not_not_intro hval)]
    rw [if_pos (show u.tc = true ∧ ¬ (isTCPBasedProtocol ns.protocol = true) from
      ⟨htc, by rw [hproto]; decide⟩)]
  have htcp : ∀ t, exchange "tcp" (joinHostPort ns.address ns.port) 5 = some t →
      handleTruncatedResponse exchange r (joinHostPort ns.address ns.port) =
        if validateResponse r t then some t else none := by
    intro t ht
    unfold handleTruncatedResponse
    rw [ht]
  refine ⟨by rw [htry], by rw [htry], ?_, ?_, ?_⟩
  · intro t ht hvt
    rw [htry]
    show handleTruncatedResponse exchange r (joinHostPort ns.address ns.port) = some t
    rw [htcp t ht, if_pos hvt]
  · intro t ht hvt
    rw [htry]
    show handleTruncatedResponse exchange r (joinHostPort ns.address ns.port) = none
    rw [htcp t ht]
    simp [hvt]
  · intro ht
    rw [htry]
    show handleTruncatedResponse exchange r (joinHostPort ns.address ns.port) = none
    unfold handleTruncatedResponse
    rw [ht]

/-- Witness for C9: truncated UDP, valid TCP — the attempt trace shows
the TCP retry on the same address and the answer is the untruncated TCP
reply. -/
theorem C9_witness :
    (tryForwardToNameserver exchangeC9 requestC9 nsC9).2 =
      [⟨"udp", joinHostPort nsC9.address nsC9.port, 5⟩,
       ⟨"tcp", joinHostPort nsC9.address nsC9.port, 5⟩] ∧
    (tryForwardToNameserver exchangeC9 requestC9 nsC9).1 = some tcpReplyC9 ∧
    tcpReplyC9.tc = false :=
  ⟨(C9_truncation_fallback exchangeC9 requestC9 nsC9 truncatedC9
      (by decide) (by decide) (by decide) (by decide)).1,
   (C9_truncation_fallback exchangeC9 requestC9 nsC9 truncatedC9
      (by decide) (by decide) (by decide) (by decide)).2.2.1 tcpReplyC9
      (by decide) (by decide),
   by decide⟩

end SdployDNS
